import Mathlib

/-!
Shallow embedding of the bcnotify watch-registry / filter / dispatch engine
(watcher.go).  Paths are Lean `String`s; the Go `path/filepath` helpers
(`Clean`, `Dir`, `Split`, `Match`, `Join`) are embedded at rune (Char)
granularity for the unix separator `/`.  Machine integers (`Op` is a Go
uint32 bitmask) are modelled as `Nat`; the only integer operation used by
the code is bitwise AND, on which `Nat` agrees with uint32 for all values
the code produces.  The external fsnotify source is modelled by its
observable responses (streams of raw items, per-path register/unregister
success).
-/

namespace Bcnotify

/-- One registration, from `watchPath` in watcher.go: the watched path, the
optional filename glob, the accepted-operation bitmask and the directory
flag. -/
structure watchPath where
  path : String
  pattern : String
  ops : Nat
  isdir : Bool
deriving DecidableEq, Repr

/-- Operation bit `Create` (1 << 0), from the `Op` constants in watcher.go. -/
def Create : Nat := 1

/-- Operation bit `Write` (1 << 1). -/
def Write : Nat := 2

/-- Operation bit `Remove` (1 << 2). -/
def Remove : Nat := 4

/-- Operation bit `Rename` (1 << 3). -/
def Rename : Nat := 8

/-- Operation bit `Chmod` (1 << 4). -/
def Chmod : Nat := 16

/-- `AllOps = Create | Write | Remove | Rename | Chmod`. -/
def AllOps : Nat := Create ||| Write ||| Remove ||| Rename ||| Chmod

/-- Split a character list at every `/`, keeping empty components, as
`strings.Split(path, "/")` does; used to implement `filepath.Clean`. -/
def splitSlash : List Char → List (List Char)
  | [] => [[]]
  | c :: cs =>
    if c == '/' then [] :: splitSlash cs
    else
      match splitSlash cs with
      | [] => [[c]]
      | h :: t => (c :: h) :: t

/-- The component-processing loop of `filepath.Clean` (unix): drop empty and
`.` components, let `..` erase the preceding real component (dropped at the
root of a rooted path, kept at the front of a relative path).  The stack is
kept in reverse order. -/
def cleanAux (rooted : Bool) : List (List Char) → List (List Char) → List (List Char)
  | stack, [] => stack
  | stack, comp :: rest =>
    if comp.isEmpty || comp == ['.'] then cleanAux rooted stack rest
    else if comp == ['.', '.'] then
      match stack with
      | [] => if rooted then cleanAux rooted [] rest else cleanAux rooted [comp] rest
      | top :: stackRest =>
        if top == ['.', '.'] then cleanAux rooted (comp :: top :: stackRest) rest
        else cleanAux rooted stackRest rest
    else cleanAux rooted (comp :: stack) rest

/-- Join the surviving components back with `/`. -/
def joinComps : List (List Char) → List Char
  | [] => []
  | [c] => c
  | c :: rest => c ++ '/' :: joinComps rest

/-- `filepath.Clean` for the unix separator: shortest lexically equivalent
path ("" becomes ".", a rooted result keeps its leading `/`, an empty
relative result becomes "."). -/
def clean (path : String) : String :=
  match path.toList with
  | [] => "."
  | c :: cs =>
    let rooted := c == '/'
    let comps := (cleanAux rooted [] (splitSlash (c :: cs))).reverse
    let body := joinComps comps
    if rooted then String.mk ('/' :: body)
    else if body.isEmpty then "." else String.mk body

/-- Keep everything up to and including the final `/` (the directory part of
`filepath.Split`); empty when the path has no separator. -/
def lastComponentDropped (l : List Char) : List Char :=
  ((l.reverse).dropWhile (fun c => !(c == '/'))).reverse

/-- `filepath.Dir` (unix): the path with its final element removed, cleaned;
"." when the path holds no separator. -/
def dirPath (path : String) : String :=
  clean (String.mk (lastComponentDropped path.toList))

/-- The file part of `filepath.Split`: everything after the final `/`. -/
def baseName (path : String) : String :=
  String.mk (((path.toList.reverse).takeWhile (fun c => !(c == '/'))).reverse)

/-- `filepath.Join` of two elements (unix): empty elements are skipped and
the result is cleaned; two empty elements give "". -/
def joinPath (a b : String) : String :=
  if a.isEmpty && b.isEmpty then ""
  else if a.isEmpty then clean b
  else if b.isEmpty then clean a
  else clean (a ++ "/" ++ b)

/-- `findWatchPath` from watcher.go: first scan the registry for an entry
whose cleaned path equals the cleaned event path (a specifically watched
file beats its directory); only if none matches, scan for an entry whose
cleaned path equals the cleaned parent directory of the event path. -/
def findWatchPath (ws : List watchPath) (path : String) : Option watchPath :=
  match ws.find? (fun p => clean path == clean p.path) with
  | some p => some p
  | none => ws.find? (fun p => clean (dirPath path) == clean p.path)

/-- `getEsc` from Go path/filepath/match.go: read one possibly
backslash-escaped character of a character class; `none` is `ErrBadPattern`
(empty tail, a leading `-` or `]`, a trailing backslash, or a class that
would end right after the character). -/
def getEsc : List Char → Option (Char × List Char)
  | [] => none
  | c :: cs =>
    if c == '-' || c == ']' then none
    else if c == '\\' then
      match cs with
      | [] => none
      | d :: ds => if ds.isEmpty then none else some (d, ds)
    else if cs.isEmpty then none
    else some (c, cs)

/-- The range-parsing loop of `matchChunk` for a `[...]` class:
consume `lo` (optionally `-hi`) pairs until the closing `]` (which only
closes after at least one range), recording whether `r` fell in any range.
The loop consumes at least one character of `chunk` per iteration, so the
caller's fuel `chunk.length + 1` never runs out. -/
def matchRanges (r : Char) : Nat → List Char → Bool → Nat → Option (Bool × List Char)
  | 0, _, _, _ => none
  | fuel + 1, chunk, m, nrange =>
    match chunk with
    | ']' :: rest =>
      if 0 < nrange then some (m, rest) else none
    | _ =>
      match getEsc chunk with
      | none => none
      | some (lo, c1) =>
        match c1 with
        | '-' :: c1t =>
          match getEsc c1t with
          | none => none
          | some (hi, c2) =>
            matchRanges r fuel c2 (m || (decide (lo ≤ r) && decide (r ≤ hi))) (nrange + 1)
        | _ =>
          matchRanges r fuel c1 (m || (decide (lo ≤ r) && decide (r ≤ lo))) (nrange + 1)

/-- `matchChunk` from Go path/filepath/match.go: match a star-free chunk
against the head of `s`; after a mismatch the chunk is still consumed (with
`failed` set) so that malformed patterns are detected.  Returns the
remaining name and whether the chunk matched; `none` is `ErrBadPattern`.
Each step consumes at least one character of the chunk, so fuel
`chunk.length + 1` suffices. -/
def matchChunkGo : Nat → List Char → List Char → Bool → Option (List Char × Bool)
  | 0, _, _, _ => none
  | fuel + 1, chunk, s, failed0 =>
    match chunk with
    | [] => if failed0 then some ([], false) else some (s, true)
    | c :: cs =>
      let failed := failed0 || s.isEmpty
      if c == '[' then
        let r : Char := if failed then '\x00' else (match s with | [] => '\x00' | a :: _ => a)
        let s1 := if failed then s else s.tail
        let nc : Bool × List Char :=
          match cs with
          | '^' :: ct => (true, ct)
          | _ => (false, cs)
        match matchRanges r (nc.2.length + 1) nc.2 false 0 with
        | none => none
        | some (m, cs2) => matchChunkGo fuel cs2 s1 (failed || (m == nc.1))
      else if c == '?' then
        if failed then matchChunkGo fuel cs s failed
        else
          match s with
          | [] => matchChunkGo fuel cs [] true
          | a :: s1 => matchChunkGo fuel cs s1 (a == '/')
      else if c == '\\' then
        match cs with
        | [] => none
        | d :: ds =>
          if failed then matchChunkGo fuel ds s failed
          else
            match s with
            | [] => matchChunkGo fuel ds [] true
            | a :: s1 => matchChunkGo fuel ds s1 (!(d == a))
      else
        if failed then matchChunkGo fuel cs s failed
        else
          match s with
          | [] => matchChunkGo fuel cs [] true
          | a :: s1 => matchChunkGo fuel cs s1 (!(c == a))

/-- `matchChunk` entry point with its sufficient fuel. -/
def matchChunk (chunk s : List Char) : Option (List Char × Bool) :=
  matchChunkGo (chunk.length + 1) chunk s false

/-- Leading-star stripping of `scanChunk`. -/
def stripStars : List Char → Bool × List Char
  | [] => (false, [])
  | c :: cs =>
    if c == '*' then (true, (stripStars cs).2)
    else (false, c :: cs)

/-- Body scan of `scanChunk`: copy characters up to the next `*` that is not
inside a `[...]` class, with a backslash protecting the following
character. -/
def scanBody : Bool → List Char → List Char × List Char
  | _, [] => ([], [])
  | inrange, c :: cs =>
    if c == '\\' then
      match cs with
      | [] => ([c], [])
      | d :: ds =>
        let p := scanBody inrange ds
        (c :: d :: p.1, p.2)
    else if c == '*' && !inrange then ([], c :: cs)
    else
      let inr2 := if c == '[' then true else if c == ']' then false else inrange
      let p := scanBody inr2 cs
      (c :: p.1, p.2)

/-- `scanChunk` from Go path/filepath/match.go: strip leading stars, then
take the segment up to the next unbracketed star. -/
def scanChunk (pattern : List Char) : Bool × List Char × List Char :=
  let sp := stripStars pattern
  let body := scanBody false sp.2
  (sp.1, body.1, body.2)

/-- Result of the star search loop inside `Match`: continue the outer loop
with a shorter name, report a bad pattern, or fall through to failure. -/
inductive MRes where
  | cont (t : List Char)
  | bad
  | fail
deriving DecidableEq, Repr

/-- The inner star loop of `Match`: try the chunk at every later position of
the name (a `*` never crosses `/`); `patEmpty` tells whether the pattern is
exhausted after this chunk, in which case only a match consuming the whole
name may stop the search. -/
def tryStar (chunk : List Char) (patEmpty : Bool) : List Char → MRes
  | [] => .fail
  | c :: cs =>
    if c == '/' then .fail
    else
      match matchChunk chunk cs with
      | some (t, true) =>
        if patEmpty && !t.isEmpty then tryStar chunk patEmpty cs
        else .cont t
      | some (_, false) => tryStar chunk patEmpty cs
      | none => .bad

/-- The final loop of `Match`: before returning a no-error non-match, check
that the rest of the pattern is syntactically valid.  Each iteration
consumes at least one pattern character, so fuel `pattern.length + 1`
suffices. -/
def validateRest : Nat → List Char → Bool
  | _, [] => true
  | 0, _ => false
  | fuel + 1, pattern =>
    let sc := scanChunk pattern
    match matchChunk sc.2.1 [] with
    | none => false
    | some _ => validateRest fuel sc.2.2

/-- The chunk-by-chunk loop of `filepath.Match`.  `some b` is a verdict with
no error, `none` is `ErrBadPattern`.  Each iteration recurses on the rest of
the pattern produced by `scanChunk`, which is strictly shorter, so fuel
`pattern.length + 1` suffices. -/
def goMatchLoop : Nat → List Char → List Char → Option Bool
  | 0, _, _ => none
  | fuel + 1, pattern, name =>
    match pattern with
    | [] => some name.isEmpty
    | _ =>
      let sc := scanChunk pattern
      let star := sc.1
      let chunk := sc.2.1
      let rest := sc.2.2
      if star && chunk.isEmpty then some (!name.contains '/')
      else
        match matchChunk chunk name with
        | some (t, true) =>
          if t.isEmpty || !rest.isEmpty then goMatchLoop fuel rest t
          else if star then
            match tryStar chunk rest.isEmpty name with
            | .cont t2 => goMatchLoop fuel rest t2
            | .bad => none
            | .fail => if validateRest (rest.length + 1) rest then some false else none
          else if validateRest (rest.length + 1) rest then some false else none
        | some (_, false) =>
          if star then
            match tryStar chunk rest.isEmpty name with
            | .cont t2 => goMatchLoop fuel rest t2
            | .bad => none
            | .fail => if validateRest (rest.length + 1) rest then some false else none
          else if validateRest (rest.length + 1) rest then some false else none
        | none => none

/-- `filepath.Match(pattern, name)` (unix): `some true` / `some false` are
match / no match with nil error, `none` is `ErrBadPattern`. -/
def goMatch (pattern name : List Char) : Option Bool :=
  goMatchLoop (pattern.length + 1) pattern name

/-- `filterByPattern` from watcher.go: resolve the entry via
`findWatchPath` (no entry rejects); an empty pattern accepts; a
specifically added file accepts without filtering; otherwise glob-match the
pattern against the filename component only, treating a match error as a
non-match. -/
def filterByPattern (ws : List watchPath) (path : String) : Bool :=
  match findWatchPath ws path with
  | none => false
  | some p =>
    if p.pattern.length = 0 then true
    else if !p.isdir then true
    else
      match goMatch p.pattern.toList (baseName path).toList with
      | none => false
      | some true => true
      | some false => false

/-- `filterByOp` from watcher.go: resolve the entry via `findWatchPath` (no
entry rejects); accept iff every bit of the event operation is set in the
entry mask (`p.ops & op == op`). -/
def filterByOp (ws : List watchPath) (path : String) (op : Nat) : Bool :=
  match findWatchPath ws path with
  | none => false
  | some p => p.ops &&& op == op

/-- One item the `select` in `WaitEvent` can receive: a raw fsnotify event
(name and operation bits), a raw transport error (abstracted to a code), or
the closed `fw.close` channel. -/
inductive RawItem where
  | rawEvent (name : String) (op : Nat)
  | rawError (code : Nat)
  | closeSignal
deriving DecidableEq, Repr

/-- What one `WaitEvent` call returns: a wrapped event (`wrapEvent` keeps
the name and operation bits), a wrapped raw error, or `ErrWatcherClosed`. -/
inductive WaitResult where
  | event (name : String) (op : Nat)
  | failure (code : Nat)
  | closed
deriving DecidableEq, Repr

/-- `WaitEvent` from watcher.go over one resolved interleaving of the three
select sources (the list order is the order items become ready): a raw
event passing both filters is returned wrapped; a rejected raw event is
discarded and the loop continues; a raw error returns immediately as a
failure; the close signal returns `ErrWatcherClosed`.  `none` means no item
ever arrives (the call stays blocked). -/
def waitEvent (ws : List watchPath) : List RawItem → Option (WaitResult × List RawItem)
  | [] => none
  | .rawEvent n o :: rest =>
    if filterByOp ws n o && filterByPattern ws n then some (.event n o, rest)
    else waitEvent ws rest
  | .rawError c :: rest => some (.failure c, rest)
  | .closeSignal :: rest => some (.closed, rest)

/-- The goroutine body of `NotifyEvent` from watcher.go, fused with the
`WaitEvent` loop it calls: each delivered event yields a
`callback(event, nil)` invocation, each error yields `callback(nil, err)`,
and `ErrWatcherClosed` ends the task silently.  The result is the list of
callback invocations, as pairs (event argument, error argument). -/
def notifyRun (ws : List watchPath) : List RawItem → List (Option (String × Nat) × Option Nat)
  | [] => []
  | .rawEvent n o :: rest =>
    if filterByOp ws n o && filterByPattern ws n then
      (some (n, o), none) :: notifyRun ws rest
    else notifyRun ws rest
  | .rawError c :: rest => (none, some c) :: notifyRun ws rest
  | .closeSignal :: _ => []

/-- Lifecycle state of a `FileSystemWatcher` for `Close`: the `isclosed`
flag guarded by `closedMu`, how many times `close(fw.close)` has run, and
how many times `fw.watcher.Close()` has been invoked. -/
structure WatcherLife where
  isclosed : Bool
  closeChanClosedCount : Nat
  sourceCloseCount : Nat
deriving DecidableEq, Repr

/-- The state of a freshly constructed watcher (`NewFileSystemWatcher`). -/
def freshWatcher : WatcherLife :=
  { isclosed := false, closeChanClosedCount := 0, sourceCloseCount := 0 }

/-- `Close` from watcher.go: under the mutex, an already-closed watcher
returns nil untouched; otherwise set the flag, close the shutdown channel,
close the underlying fsnotify watcher and return its error (`srcErr` models
that result). -/
def closeOnce (srcErr : Option Nat) (s : WatcherLife) : WatcherLife × Option Nat :=
  if s.isclosed then (s, none)
  else
    ({ isclosed := true,
       closeChanClosedCount := s.closeChanClosedCount + 1,
       sourceCloseCount := s.sourceCloseCount + 1 }, srcErr)

/-- A sequence of `n` consecutive `Close` calls, collecting the returned
errors in order. -/
def closeN (srcErr : Option Nat) : Nat → WatcherLife → WatcherLife × List (Option Nat)
  | 0, s => (s, [])
  | n + 1, s =>
    let p := closeOnce srcErr s
    let q := closeN srcErr n p.1
    (q.1, p.2 :: q.2)

-- A filesystem subtree as `filepath.Walk` observes it: a file or a
-- directory with its children, the child list carried in the sorted order
-- `readDirNames` produces.
mutual
inductive FsTree where
  | file (name : String) : FsTree
  | dir (name : String) (children : FsForest) : FsTree
inductive FsForest where
  | nil : FsForest
  | cons (head : FsTree) (tail : FsForest) : FsForest
end

/-- The name component of a tree node. -/
def treeName : FsTree → String
  | .file n => n
  | .dir n _ => n

-- Directories visited by `filepath.Walk(path, fn)` in visit order: the
-- walk visits the root itself first, then recursively every child under its
-- joined path.  Files are visited too but the AddDir/RemoveDir callbacks act
-- only on directories, so only directories are listed.
mutual
def walkDirs : FsTree → String → List String
  | .file _, _ => []
  | .dir _ children, path => path :: walkForest children path
def walkForest : FsForest → String → List String
  | .nil, _ => []
  | .cons e es, path => walkDirs e (joinPath path (treeName e)) ++ walkForest es path
end

/-- `removePath` from watcher.go: delete the first entry whose stored path
is string-equal to `path`; no-op when absent. -/
def removePath (paths : List watchPath) (path : String) : List watchPath :=
  match paths with
  | [] => []
  | p :: ps => if p.path == path then ps else p :: removePath ps path

/-- The registration walk of `AddDir(recursive=true)`: for every directory
the walk visits (the root included), `addDir` registers it with the source
and appends an entry carrying the parent's pattern and ops; `reg` models the
per-path success of `fw.watcher.Add`.  Because the callback tests the walk's
incoming `err` instead of the `addDir` result `e`, a failed `addDir` is
skipped silently and the walk continues with no error. -/
def walkAdd (reg : String → Bool) (ws : List watchPath) (dirs : List String)
    (pattern : String) (ops : Nat) : List watchPath :=
  match dirs with
  | [] => ws
  | p :: rest =>
    walkAdd reg (if reg p then ws ++ [⟨p, pattern, ops, true⟩] else ws) rest pattern ops

/-- `AddDir` from watcher.go against the tree `fs` rooted at `path`: a
non-directory is rejected ("Use AddFile instead"); otherwise `addDir`
registers the root and appends its entry, and when `recursive` the
`filepath.Walk` registers every visited directory — the root again among
them — with walk-internal `addDir` failures swallowed by the `err`/`e`
mixup, so the recursive branch always returns nil.  The Bool result is true
when the call returns a nil error. -/
def AddDirModel (reg : String → Bool) (fs : FsTree) (ws : List watchPath)
    (path pattern : String) (ops : Nat) (recursive : Bool) : List watchPath × Bool :=
  match fs with
  | .file _ => (ws, false)
  | .dir _ _ =>
    if reg path then
      let ws1 := ws ++ [⟨path, pattern, ops, true⟩]
      if recursive then (walkAdd reg ws1 (walkDirs fs path) pattern ops, true)
      else (ws1, true)
    else (ws, false)

/-- The unregistration walk of `RemoveDir(recursive=true)`: for every
visited directory, `removeDir` unregisters it from the source and deletes
its first registry entry; `unreg` models the per-path success of
`fw.watcher.Remove`.  The same `err`/`e` mixup swallows walk-internal
failures. -/
def walkRemove (unreg : String → Bool) (ws : List watchPath) (dirs : List String) :
    List watchPath :=
  match dirs with
  | [] => ws
  | p :: rest => walkRemove unreg (if unreg p then removePath ws p else ws) rest

/-- `RemoveDir` from watcher.go against the tree `fs` rooted at `path`: a
non-directory is rejected; otherwise `removeDir` unregisters the root, and
when `recursive` the walk unregisters every visited directory, walk-internal
failures swallowed.  The Bool result is true when the call returns a nil
error. -/
def RemoveDirModel (unreg : String → Bool) (fs : FsTree) (ws : List watchPath)
    (path : String) (recursive : Bool) : List watchPath × Bool :=
  match fs with
  | .file _ => (ws, false)
  | .dir _ _ =>
    if unreg path then
      let ws1 := removePath ws path
      if recursive then (walkRemove unreg ws1 (walkDirs fs path), true)
      else (ws1, true)
    else (ws, false)

/-- A string distinct from the empty string has nonzero length. -/
theorem length_ne_zero_of_ne_empty (s : String) (h : s ≠ "") : s.length ≠ 0 := by
  intro h0
  apply h
  cases s with
  | mk data =>
    simp [String.length] at h0
    simp [h0]

/-- Once `isclosed` is set, every further `Close` call leaves the state
untouched and returns nil. -/
theorem closeN_of_closed (srcErr : Option Nat) (n : Nat) (s : WatcherLife)
    (h : s.isclosed = true) : closeN srcErr n s = (s, List.replicate n none) := by
  induction n with
  | zero => simp [closeN]
  | succ k ih => simp [closeN, closeOnce, h, ih, List.replicate_succ]

/-- When every source registration succeeds, the registration walk appends
one entry per visited directory, in walk order, all carrying the walk's
pattern and ops. -/
theorem walkAdd_all_success (dirs : List String) (ws : List watchPath)
    (pattern : String) (ops : Nat) :
    walkAdd (fun _ => true) ws dirs pattern ops =
      ws ++ dirs.map (fun q => ⟨q, pattern, ops, true⟩) := by
  induction dirs generalizing ws with
  | nil => simp [walkAdd]
  | cons d rest ih => simp [walkAdd, ih]

/-- Claim C1: when a file F is registered directly and a directory D whose
cleaned path is the cleaned parent of F's path is also registered, the
two-pass `findWatchPath` applied to F's path returns F's entry (for both
insertion orders of the two entries) and, in any registry containing F,
never returns D's entry: an exact cleaned-path match in pass one always
wins over a cleaned-parent-directory match in pass two. -/
theorem findWatchPath_file_wins (eF eD : watchPath) (p : String)
    (hFpath : clean eF.path = clean p) (hFfile : eF.isdir = false)
    (hDpath : clean eD.path = clean (dirPath p))
    (hparent : clean (dirPath p) ≠ clean p) :
    (findWatchPath [eF, eD] p = some eF ∧ findWatchPath [eD, eF] p = some eF) ∧
    ∀ ws : List watchPath, eF ∈ ws →
      ∃ e, findWatchPath ws p = some e ∧ clean e.path = clean p ∧ e ≠ eD := by
  have hFb : (clean p == clean eF.path) = true := beq_iff_eq.mpr hFpath.symm
  have hDne : clean eD.path ≠ clean p := by rw [hDpath]; exact hparent
  have hDb : (clean p == clean eD.path) = false := by
    rw [beq_eq_false_iff_ne]
    exact fun h => hDne h.symm
  have h1 : List.find? (fun q => clean p == clean q.path) [eF, eD] = some eF :=
    @List.find?_cons_of_pos watchPath (fun q => clean p == clean q.path) eF [eD] hFb
  have h2 : List.find? (fun q => clean p == clean q.path) [eD, eF] =
      List.find? (fun q => clean p == clean q.path) [eF] :=
    @List.find?_cons_of_neg watchPath (fun q => clean p == clean q.path) eD [eF]
      (by simp [hDb])
  have h3 : List.find? (fun q => clean p == clean q.path) [eF] = some eF :=
    @List.find?_cons_of_pos watchPath (fun q => clean p == clean q.path) eF [] hFb
  constructor
  · constructor
    · unfold findWatchPath
      rw [h1]
    · unfold findWatchPath
      rw [h2, h3]
  · intro ws hmem
    have hsome : (ws.find? (fun q => clean p == clean q.path)).isSome = true := by
      rw [List.find?_isSome]
      exact ⟨eF, hmem, hFb⟩
    obtain ⟨e, he⟩ := Option.isSome_iff_exists.mp hsome
    have hpe : (clean p == clean e.path) = true :=
      @List.find?_some watchPath (fun q => clean p == clean q.path) e ws he
    have hcl : clean e.path = clean p := (beq_iff_eq.mp hpe).symm
    refine ⟨e, ?_, hcl, ?_⟩
    · unfold findWatchPath
      rw [he]
    · intro hed
      apply hDne
      rw [← hed]
      exact hcl

/-- Witness for C1 at a concrete registry: the direct file entry for
"d/f.txt" wins over the "d" directory entry. -/
theorem findWatchPath_file_wins_witness :
    findWatchPath [⟨"d/f.txt", "", 31, false⟩, ⟨"d", "*.txt", 31, true⟩] "d/f.txt" =
      some ⟨"d/f.txt", "", 31, false⟩ :=
  (findWatchPath_file_wins ⟨"d/f.txt", "", 31, false⟩ ⟨"d", "*.txt", 31, true⟩ "d/f.txt"
    (by decide) (by decide) (by decide) (by decide)).1.1

/-- Claim C2, counterexample: recursive `AddDir` on a root "d" with one
subdirectory leaves TWO registry entries for the root "d", because
`filepath.Walk` visits the root itself and the walk registers it again —
the claim's "exactly one WatchEntry for the root" is false. -/
theorem AddDir_root_registered_twice_cex :
    ((AddDirModel (fun _ => true) (.dir "d" (.cons (.dir "sub" .nil) .nil)) []
        "d" "*.txt" 31 true).1.countP (fun w => w.path == "d")) = 2 := by decide

/-- Claim C2, amended: recursive `AddDir` registers the root once before the
walk and then once more for every directory the walk visits — the root
included, since `filepath.Walk` starts at the root — each walk entry
carrying the same pattern and ops as the root; so the root ends with two
entries and each proper subdirectory with one per visit. -/
theorem AddDir_recursive_registers_walk (nm : String) (children : FsForest)
    (ws : List watchPath) (path pattern : String) (ops : Nat) :
    AddDirModel (fun _ => true) (.dir nm children) ws path pattern ops true =
      (ws ++ [⟨path, pattern, ops, true⟩] ++
        (walkDirs (.dir nm children) path).map (fun q => ⟨q, pattern, ops, true⟩),
       true) ∧
    walkDirs (FsTree.dir nm children) path = path :: walkForest children path := by
  constructor
  · simp [AddDirModel, walkAdd_all_success]
  · simp [walkDirs]

/-- Claim C3: the recursive walks of `AddDir` and `RemoveDir` test the
walk's incoming `err` instead of the per-directory result `e`, so a failed
subdirectory registration or unregistration is skipped silently: the call
still returns nil (second component `true`) while already-processed
subdirectories stay processed.  Here the source fails exactly on "d/sub1":
`AddDir` returns nil with "d/sub1" missing from the registry, and
`RemoveDir` returns nil with "d/sub1" left behind. -/
theorem recursive_walk_error_swallowed :
    (AddDirModel (fun p => !(p == "d/sub1"))
        (.dir "d" (.cons (.dir "sub1" .nil) (.cons (.dir "sub2" .nil) .nil)))
        [] "d" "" 31 true =
      ([⟨"d", "", 31, true⟩, ⟨"d", "", 31, true⟩, ⟨"d/sub2", "", 31, true⟩], true)) ∧
    (RemoveDirModel (fun p => !(p == "d/sub1"))
        (.dir "d" (.cons (.dir "sub1" .nil) (.cons (.dir "sub2" .nil) .nil)))
        [⟨"d", "", 31, true⟩, ⟨"d", "", 31, true⟩,
         ⟨"d/sub1", "", 31, true⟩, ⟨"d/sub2", "", 31, true⟩]
        "d" true =
      ([⟨"d/sub1", "", 31, true⟩], true)) := by decide

/-- Claim C4: with a resolved entry, `filterByOp` accepts exactly when every
bit of the operation is contained in the entry mask; an `AllOps` mask
accepts each of the five single-bit operations, a single-bit mask accepts
only that bit among the five; with no resolved entry it rejects. -/
theorem filterByOp_subset_spec (ws : List watchPath) (path : String) :
    (findWatchPath ws path = none → ∀ op, filterByOp ws path op = false) ∧
    (∀ e, findWatchPath ws path = some e →
      (∀ op, (filterByOp ws path op = true ↔ e.ops &&& op = op)) ∧
      (e.ops = AllOps → ∀ o, o ∈ [Create, Write, Remove, Rename, Chmod] →
        filterByOp ws path o = true) ∧
      (∀ b, b ∈ [Create, Write, Remove, Rename, Chmod] → e.ops = b →
        ∀ o, o ∈ [Create, Write, Remove, Rename, Chmod] →
          (filterByOp ws path o = true ↔ o = b))) := by
  constructor
  · intro h op
    simp [filterByOp, h]
  · intro e he
    refine ⟨?_, ?_, ?_⟩
    · intro op
      simp [filterByOp, he]
    · intro hAll o ho
      fin_cases ho <;> simp [filterByOp, he, hAll] <;> decide
    · intro b hb hbe o ho
      fin_cases hb <;> fin_cases ho <;> simp [filterByOp, he, hbe] <;> decide

/-- Witness for C4: an entry with mask `Write` accepts `Write` and rejects
`Create`. -/
theorem filterByOp_subset_spec_witness :
    filterByOp [⟨"f", "", 2, false⟩] "f" 2 = true ∧
    filterByOp [⟨"f", "", 2, false⟩] "f" 1 = false := by
  have h := (filterByOp_subset_spec [⟨"f", "", 2, false⟩] "f").2
    ⟨"f", "", 2, false⟩ (by decide)
  constructor
  · exact (h.1 2).mpr (by decide)
  · have hiff := h.2.2 2 (by decide) rfl 1 (by decide)
    cases hb : filterByOp [⟨"f", "", 2, false⟩] "f" 1 with
    | false => rfl
    | true => exact absurd (hiff.mp hb) (by decide)

/-- Claim C5: for a path resolving to a directory entry with a non-empty
pattern, `filterByPattern` accepts exactly when `filepath.Match` accepts
the pattern against the filename component alone (the directory portion
stripped by `baseName`), and a malformed pattern (a `Match` error) is a
non-match, not a propagated error. -/
theorem filterByPattern_dir_glob (ws : List watchPath) (path : String) (e : watchPath)
    (he : findWatchPath ws path = some e) (hdir : e.isdir = true) (hpat : e.pattern ≠ "") :
    (filterByPattern ws path = true ↔
      goMatch e.pattern.toList (baseName path).toList = some true) ∧
    (goMatch e.pattern.toList (baseName path).toList = none →
      filterByPattern ws path = false) := by
  have hlen : ¬ e.pattern.length = 0 := length_ne_zero_of_ne_empty _ hpat
  constructor
  · rcases hg : goMatch e.pattern.toList (baseName path).toList with _ | b
    · simp only [String.toList] at hg
      simp [filterByPattern, he, hlen, hdir, hg]
    · simp only [String.toList] at hg
      cases b <;> simp [filterByPattern, he, hlen, hdir, hg]
  · intro hg
    simp only [String.toList] at hg
    simp [filterByPattern, he, hlen, hdir, hg]

/-- Witness for C5: the "d" directory watch with pattern "*.txt" accepts
"d/x.txt" (glob matches the filename only), and the malformed pattern "["
yields a rejection rather than an error. -/
theorem filterByPattern_dir_glob_witness :
    filterByPattern [⟨"d", "*.txt", 31, true⟩] "d/x.txt" = true ∧
    filterByPattern [⟨"d", "[", 31, true⟩] "d/x.txt" = false := by
  constructor
  · exact (filterByPattern_dir_glob [⟨"d", "*.txt", 31, true⟩] "d/x.txt"
      ⟨"d", "*.txt", 31, true⟩ (by decide) rfl (by decide)).1.mpr (by decide)
  · exact (filterByPattern_dir_glob [⟨"d", "[", 31, true⟩] "d/x.txt"
      ⟨"d", "[", 31, true⟩ (by decide) rfl (by decide)).2 (by decide)

/-- Claim C6: a path resolving to a direct-file entry passes
`filterByPattern` unconditionally, whatever pattern the entry carries. -/
theorem filterByPattern_file_always (ws : List watchPath) (path : String) (e : watchPath)
    (he : findWatchPath ws path = some e) (hfile : e.isdir = false) :
    filterByPattern ws path = true := by
  by_cases hlen : e.pattern.length = 0
  · simp [filterByPattern, he, hlen]
  · simp [filterByPattern, he, hlen, hfile]

/-- Witness for C6: a directly added file with a pattern its own name does
not match is still accepted. -/
theorem filterByPattern_file_always_witness :
    filterByPattern [⟨"f.ini", "*.txt", 31, false⟩] "f.ini" = true :=
  filterByPattern_file_always [⟨"f.ini", "*.txt", 31, false⟩] "f.ini"
    ⟨"f.ini", "*.txt", 31, false⟩ (by decide) rfl

/-- Claim C7: over any interleaving of the select sources, an event
`WaitEvent` returns passes both filters; a raw event rejected by either
filter is discarded and the loop continues without returning; a raw error
is returned immediately as a failure; the shutdown signal yields the
dedicated watcher-closed result. -/
theorem waitEvent_filters (ws : List watchPath) :
    (∀ items n o rest, waitEvent ws items = some (.event n o, rest) →
        filterByOp ws n o = true ∧ filterByPattern ws n = true) ∧
    (∀ n o items, filterByOp ws n o = false ∨ filterByPattern ws n = false →
        waitEvent ws (.rawEvent n o :: items) = waitEvent ws items) ∧
    (∀ c items, waitEvent ws (.rawError c :: items) = some (.failure c, items)) ∧
    (∀ items, waitEvent ws (.closeSignal :: items) = some (.closed, items)) := by
  refine ⟨?_, ?_, ?_, ?_⟩
  · intro items
    induction items with
    | nil => intro n o rest h; simp [waitEvent] at h
    | cons it t ih =>
      intro n o rest h
      cases it with
      | rawEvent n2 o2 =>
        by_cases hc : (filterByOp ws n2 o2 && filterByPattern ws n2) = true
        · rw [waitEvent, if_pos hc] at h
          simp only [Option.some.injEq, Prod.mk.injEq, WaitResult.event.injEq] at h
          obtain ⟨⟨hn, ho⟩, -⟩ := h
          subst hn; subst ho
          rw [Bool.and_eq_true] at hc
          exact hc
        · rw [waitEvent, if_neg hc] at h
          exact ih n o rest h
      | rawError c => simp [waitEvent] at h
      | closeSignal => simp [waitEvent] at h
  · intro n o items h
    have hc : (filterByOp ws n o && filterByPattern ws n) = false := by
      rcases h with h | h <;> simp [h]
    simp [waitEvent, hc]
  · intro c items
    simp [waitEvent]
  · intro items
    simp [waitEvent]

/-- Witness for C7: an event failing the operation filter is skipped and the
following close signal is returned as the watcher-closed result. -/
theorem waitEvent_filters_witness :
    waitEvent [⟨"f", "", 1, false⟩] [.rawEvent "f" 2, .closeSignal] = some (.closed, []) := by
  have h := waitEvent_filters [⟨"f", "", 1, false⟩]
  rw [h.2.1 "f" 2 [.closeSignal] (Or.inl (by decide))]
  exact h.2.2.2 []

/-- Claim C8: starting from a fresh watcher, any sequence of N = n + 2 > 1
`Close` calls returns the underlying source's close result on the first
call and nil on every later call, closes the shutdown channel exactly once
and invokes the source's close exactly once. -/
theorem Close_idempotent (srcErr : Option Nat) (n : Nat) :
    closeN srcErr (n + 2) freshWatcher =
      ({ isclosed := true, closeChanClosedCount := 1, sourceCloseCount := 1 },
       srcErr :: List.replicate (n + 1) none) := by
  have h1 : closeOnce srcErr freshWatcher =
      ({ isclosed := true, closeChanClosedCount := 1, sourceCloseCount := 1 }, srcErr) := rfl
  show closeN srcErr ((n + 1) + 1) freshWatcher = _
  rw [closeN, h1]
  simp [closeN_of_closed]

/-- Claim C9: the task spawned by `NotifyEvent` invokes `callback(event,
nil)` for every successful `WaitEvent` result and `callback(nil, err)` for
every error result, and the watcher-closed result terminates the task with
no final callback invocation. -/
theorem notifyRun_callbacks (ws : List watchPath) :
    (∀ items n o rest, waitEvent ws items = some (.event n o, rest) →
        notifyRun ws items = (some (n, o), none) :: notifyRun ws rest) ∧
    (∀ items c rest, waitEvent ws items = some (.failure c, rest) →
        notifyRun ws items = (none, some c) :: notifyRun ws rest) ∧
    (∀ items rest, waitEvent ws items = some (.closed, rest) → notifyRun ws items = []) := by
  refine ⟨?_, ?_, ?_⟩
  · intro items
    induction items with
    | nil => intro n o rest h; simp [waitEvent] at h
    | cons it t ih =>
      intro n o rest h
      cases it with
      | rawEvent n2 o2 =>
        by_cases hc : (filterByOp ws n2 o2 && filterByPattern ws n2) = true
        · rw [waitEvent, if_pos hc] at h
          simp only [Option.some.injEq, Prod.mk.injEq, WaitResult.event.injEq] at h
          obtain ⟨⟨hn, ho⟩, hr⟩ := h
          subst hn; subst ho; subst hr
          rw [notifyRun, if_pos hc]
        · rw [waitEvent, if_neg hc] at h
          rw [notifyRun, if_neg hc]
          exact ih n o rest h
      | rawError c => simp [waitEvent] at h
      | closeSignal => simp [waitEvent] at h
  · intro items
    induction items with
    | nil => intro c rest h; simp [waitEvent] at h
    | cons it t ih =>
      intro c rest h
      cases it with
      | rawEvent n2 o2 =>
        by_cases hc : (filterByOp ws n2 o2 && filterByPattern ws n2) = true
        · rw [waitEvent, if_pos hc] at h
          simp at h
        · rw [waitEvent, if_neg hc] at h
          rw [notifyRun, if_neg hc]
          exact ih c rest h
      | rawError c2 =>
        rw [waitEvent] at h
        simp only [Option.some.injEq, Prod.mk.injEq, WaitResult.failure.injEq] at h
        obtain ⟨hc2, hr⟩ := h
        subst hc2; subst hr
        rw [notifyRun]
      | closeSignal => simp [waitEvent] at h
  · intro items
    induction items with
    | nil => intro rest h; simp [waitEvent] at h
    | cons it t ih =>
      intro rest h
      cases it with
      | rawEvent n2 o2 =>
        by_cases hc : (filterByOp ws n2 o2 && filterByPattern ws n2) = true
        · rw [waitEvent, if_pos hc] at h
          simp at h
        · rw [waitEvent, if_neg hc] at h
          rw [notifyRun, if_neg hc]
          exact ih rest h
      | rawError c => simp [waitEvent] at h
      | closeSignal => rfl

/-- Witness for C9: a raw error produces one `callback(nil, err)` invocation
and the following close signal ends the task with no further invocation. -/
theorem notifyRun_callbacks_witness :
    notifyRun [⟨"f", "", 1, false⟩] [.rawError 3, .closeSignal] = [(none, some 3)] := by
  have h := notifyRun_callbacks [⟨"f", "", 1, false⟩]
  rw [h.2.1 [.rawError 3, .closeSignal] 3 [.closeSignal] (by decide)]
  rw [h.2.2 [.closeSignal] [] (by decide)]

/-- Claim C10: an event whose operation bitmask is zero passes `filterByOp`
for every path that resolves to an entry, whatever the entry's mask, since
`mask &&& 0 = 0`. -/
theorem filterByOp_zero_op (ws : List watchPath) (path : String) (e : watchPath)
    (he : findWatchPath ws path = some e) :
    filterByOp ws path 0 = true := by
  simp [filterByOp, he]

/-- Witness for C10: a zero-operation event passes both for a single-bit
mask and for the zero mask. -/
theorem filterByOp_zero_op_witness :
    filterByOp [⟨"f", "", 4, false⟩] "f" 0 = true ∧
    filterByOp [⟨"g", "", 0, false⟩] "g" 0 = true :=
  ⟨filterByOp_zero_op [⟨"f", "", 4, false⟩] "f" ⟨"f", "", 4, false⟩ (by decide),
   filterByOp_zero_op [⟨"g", "", 0, false⟩] "g" ⟨"g", "", 0, false⟩ (by decide)⟩

end Bcnotify
